import Mathlib

/-!
Verification of the `use-raf` frame-scheduling library against its
natural-language specification.

The development shallowly embeds the scheduling layer:

* millisecond quantities are modelled as rationals (`ℚ`), with the
  JavaScript truncating remainder (`%`) and `Math.floor` / `Math.max` /
  `Math.min` made explicit;
* each scheduling component (`setFrame` / FrameOnce, `setFrameTimeout` /
  FrameAfterDelay, `setFrameInterval` / FrameInterval, the `useRafLoop`
  controlled loop, the `useRafTimer` derived timer) is embedded as a pure
  step function on an explicit state record, driven by a list of host
  events (deadline dispatches, repaint dispatches, user operations); a
  boolean validity predicate restricts traces to those the host can
  deliver (only live registrations fire, deadline dispatches respect the
  requested minimum delay, repaint timestamps do not precede the
  registration);
* the pure helpers (`clamp`, `normalize`, `trim`, `useProgress`, `avg`)
  are embedded directly as functions on `ℚ`.

Definitions come first, then the theorems.
-/

namespace UseRaf

/-! ## JavaScript arithmetic helpers -/

/-- Truncation toward zero of a rational, as JavaScript number-to-integer
truncation behaves (`x - x % 1`). -/
def jsTrunc (q : ℚ) : ℤ := if 0 ≤ q then ⌊q⌋ else ⌈q⌉

/-- The JavaScript remainder operator `x % y`, namely
`x - y * trunc (x / y)`; the result carries the sign of the dividend. -/
def jsMod (x y : ℚ) : ℚ := x - y * (jsTrunc (x / y) : ℚ)

/-! ## `useProgress` helpers

`clamp`, `normalize` and `trim` are the module-level helpers of the
progress hook; `useProgress` is the value its memo computes. -/

/-- Source helper: `clamp(left, right)(x) = Math.max(left, Math.min(x, right))`. -/
def clamp (left right x : ℚ) : ℚ := max left (min x right)

/-- Source helper: `normalize = clamp(0, 1)`. -/
def normalize (x : ℚ) : ℚ := clamp 0 1 x

/-- The decimal-place count used by `trim`:
`p = Math.max(0, precision - (precision % 1))`, i.e. the truncation of
`precision` toward zero, floored at `0`. -/
def trimExp (precision : ℚ) : ℕ := (max 0 (jsTrunc precision)).toNat

/-- Source helper:
`trim(x, precision) = Math.floor(x * 10 ** p) / 10 ** p`. -/
def trim (x precision : ℚ) : ℚ :=
  let mult : ℚ := (10 : ℚ) ^ trimExp precision
  (⌊x * mult⌋ : ℚ) / mult

/-- The progress value computed by `useProgress`: `duration === 0` yields
`1`; otherwise the `elapsed / duration` ratio is normalized into `[0, 1]`
and trimmed to `precision` decimal places. -/
def useProgress (elapsed duration precision : ℚ) : ℚ :=
  if duration = 0 then 1
  else trim (normalize (elapsed / duration)) precision

/-! ## FrameOnce: `setFrame`

`setFrame(callback)` registers one repaint callback and returns a cancel
closure around `cancelAnimationFrame`.  The machine state records whether
the registration is still live and how many times the callback fired.
Host events: the repaint dispatch of this registration, and an invocation
of the returned cancel handle.  `sfOk` marks a trace as host-deliverable:
the repaint dispatch only occurs while the registration is live
(cancelling a dead registration is always allowed — it is a host no-op). -/

structure SfState where
  fLive : Bool
  fires : ℕ
deriving DecidableEq

/-- State right after the `setFrame` call: one live repaint registration. -/
def sfInit : SfState := ⟨true, 0⟩

inductive SfEv
  | fFire
  | cancel
deriving DecidableEq

def sfStep (s : SfState) : SfEv → SfState
  | .fFire => if s.fLive then { fLive := false, fires := s.fires + 1 } else s
  | .cancel => { s with fLive := false }

def sfRun (s : SfState) (es : List SfEv) : SfState := es.foldl sfStep s

def sfGuard (s : SfState) : SfEv → Bool
  | .fFire => s.fLive
  | .cancel => true

def sfOk : SfState → List SfEv → Bool
  | _, [] => true
  | s, e :: es => sfGuard s e && sfOk (sfStep s e) es

/-! ## FrameAfterDelay: `setFrameTimeout` (untimed machine)

`setFrameTimeout(handler, delay)` arms a deadline timer; when the timer
fires it registers a repaint callback which invokes the handler.  The
returned cancel closure clears the deadline timer and, when the deadline
stage already fired, cancels the repaint registration.  `tLive` is the
pending deadline timer, `fLive` the pending repaint registration. -/

structure FtState where
  tLive : Bool
  fLive : Bool
  fires : ℕ
deriving DecidableEq

/-- State right after the `setFrameTimeout` call: deadline timer armed,
no repaint registration yet, handler not yet invoked. -/
def ftInit : FtState := ⟨true, false, 0⟩

inductive FtEv
  | tFire
  | fFire
  | cancel
deriving DecidableEq

def ftStep (s : FtState) : FtEv → FtState
  | .tFire => if s.tLive then { s with tLive := false, fLive := true } else s
  | .fFire => if s.fLive then { s with fLive := false, fires := s.fires + 1 } else s
  | .cancel => { s with tLive := false, fLive := false }

def ftRun (s : FtState) (es : List FtEv) : FtState := es.foldl ftStep s

def ftGuard (s : FtState) : FtEv → Bool
  | .tFire => s.tLive
  | .fFire => s.fLive
  | .cancel => true

def ftOk : FtState → List FtEv → Bool
  | _, [] => true
  | s, e :: es => ftGuard s e && ftOk (ftStep s e) es

/-! ## FrameAfterDelay with host time (timed machine)

The same machine with timestamps, used for the delay lower bound: the
schedule call happens at host time `schedAt` with delay argument `dly`;
the host fires the deadline timer at some `u` with `schedAt + dly ≤ u`
(the deadline primitive guarantees only a minimum delay), and fires the
repaint registration at some `ts` with `u ≤ ts`.  `fArm` records the
host time at which the repaint registration was created. -/

structure FttState where
  tLive : Bool
  fArm : Option ℚ
  fLive : Bool
  fires : List ℚ
deriving DecidableEq

def fttInit : FttState := ⟨true, none, false, []⟩

inductive FttEv
  | tFire (u : ℚ)
  | fFire (ts : ℚ)
  | cancel
deriving DecidableEq

def fttStep (s : FttState) : FttEv → FttState
  | .tFire u =>
      if s.tLive then { s with tLive := false, fArm := some u, fLive := true } else s
  | .fFire ts =>
      if s.fLive then { s with fLive := false, fires := s.fires ++ [ts] } else s
  | .cancel => { s with tLive := false, fLive := false }

def fttRun (s : FttState) (es : List FttEv) : FttState := es.foldl fttStep s

def fttGuard (schedAt dly : ℚ) (s : FttState) : FttEv → Bool
  | .tFire u => s.tLive && decide (schedAt + dly ≤ u)
  | .fFire ts =>
      s.fLive &&
        (match s.fArm with
         | some u => decide (u ≤ ts)
         | none => false)
  | .cancel => true

def fttOk (schedAt dly : ℚ) : FttState → List FttEv → Bool
  | _, [] => true
  | s, e :: es => fttGuard schedAt dly s e && fttOk schedAt dly (fttStep s e) es

/-- Inductive invariant of the timed FrameAfterDelay machine: the
deadline stage records a dispatch time no earlier than the requested
deadline, the repaint registration exists only after the deadline stage
dispatched, and every handler invocation happened at a repaint timestamp
no earlier than the deadline dispatch. -/
def FttInv (schedAt dly : ℚ) (s : FttState) : Prop :=
  (s.tLive = true → s.fArm = none ∧ s.fires = [] ∧ s.fLive = false)
    ∧ (∀ u, s.fArm = some u → schedAt + dly ≤ u)
    ∧ (s.fLive = true → s.fArm.isSome)
    ∧ (s.fires ≠ [] → s.fArm.isSome)
    ∧ (∀ u, s.fArm = some u → ∀ ts ∈ s.fires, u ≤ ts)

/-! ## FrameInterval: `setFrameInterval`

`setFrameInterval(handler, delay)` captures `started` at schedule time and
arms a `setFrameTimeout` chain; each firing at timestamp `ts` computes
`elapsed = ts - started`, `drift = delay > 0 ? elapsed % delay : 0`, and
arms the next stage with delay `delay - drift`, storing the fresh cancel
handle in the tracked cell (`cur`).  The outer cancel closure invokes
whatever handle the cell currently holds.  On a repaint firing, the
wrapped callback first runs the handler — during which an invocation of
the outer cancel hits the current, just-fired schedule (`prev` keeps that
spent instance for inspection) — and only then arms the fresh schedule
and overwrites the cell. -/

/-- Delay for the next stage, as computed by `schedule(at)` in the source:
`elapsed = at - started`, `drift = delay > 0 ? elapsed % delay : 0`,
result `delay - drift`. -/
def ivSchedDelay (started period at_ : ℚ) : ℚ :=
  let elapsed := at_ - started
  let drift := if 0 < period then jsMod elapsed period else 0
  period - drift

structure IvState where
  started : ℚ
  period : ℚ
  cur : FtState
  curDelay : ℚ
  prev : Option FtState
  fires : List ℚ
deriving DecidableEq

/-- State right after the `setFrameInterval` call: the first
`setFrameTimeout` is armed with delay `period - drift(0) = period`. -/
def ivInit (started period : ℚ) : IvState :=
  { started := started
    period := period
    cur := ftInit
    curDelay := ivSchedDelay started period started
    prev := none
    fires := [] }

inductive IvEv
  | tFire
  | fFire (ts : ℚ) (cancelInHandler : Bool)
  | cancel
deriving DecidableEq

def ivStep (s : IvState) : IvEv → IvState
  | .tFire => { s with cur := ftStep s.cur .tFire }
  | .fFire ts inH =>
      let spent := ftStep s.cur .fFire
      let spent := if inH then ftStep spent .cancel else spent
      { s with
        cur := ftInit
        curDelay := ivSchedDelay s.started s.period ts
        prev := some spent
        fires := s.fires ++ [ts] }
  | .cancel => { s with cur := ftStep s.cur .cancel }

def ivRun (s : IvState) (es : List IvEv) : IvState := es.foldl ivStep s

def ivGuard (s : IvState) : IvEv → Bool
  | .tFire => s.cur.tLive
  | .fFire ts _ => s.cur.fLive && decide (s.started ≤ ts)
  | .cancel => true

def ivOk : IvState → List IvEv → Bool
  | _, [] => true
  | s, e :: es => ivGuard s e && ivOk (ivStep s e) es

/-! ## DerivedTimer: `useRafTimer` (one running episode)

The timer accumulates each loop tick's `delta` into `elapsedRef`
(`setElapsed` also invokes `onUpdate`), and — while active — arms a side
deadline check for `duration - elapsedRef.current` ms; when that check
fires it runs `Math.max(elapsedRef.current, duration)` through
`setElapsed` and then `finalize()` (`stop()` followed by `onComplete`).
`TimerObs` collects the observable effects of one running episode:
`updates` is the list of values handed to `onUpdate`, `completions`
counts `onComplete` invocations, `active` mirrors the loop state. -/

structure TimerObs where
  elapsed : ℚ
  lastTs : Option ℚ
  updates : List ℚ
  completions : ℕ
  active : Bool
deriving DecidableEq

/-- One tick of the underlying loop as seen by the timer's `onFrame`:
the loop computes `delta = timestamp - (last ?? timestamp)` and the timer
runs `setElapsed(elapsedRef.current + delta)`, which records the value
and invokes `onUpdate` with it. -/
def timerFrame (s : TimerObs) (ts : ℚ) : TimerObs :=
  let delta := ts - (s.lastTs.getD ts)
  let e := s.elapsed + delta
  { s with elapsed := e, lastTs := some ts, updates := s.updates ++ [e] }

/-- The side deadline check firing:
`elapsed = Math.max(elapsedRef.current, duration)`, `setElapsed(elapsed)`
(which invokes `onUpdate`), then `finalize()` — `stop()` and
`onComplete`. -/
def timerFire (duration : ℚ) (s : TimerObs) : TimerObs :=
  let e := max s.elapsed duration
  { elapsed := e
    lastTs := s.lastTs
    updates := s.updates ++ [e]
    completions := s.completions + 1
    active := false }

structure TRun where
  duration : ℚ
  e0 : ℚ
  armAt : ℚ
  frames : List ℚ
  fireAt : ℚ
deriving DecidableEq

/-- Observable outcome of one running episode that ends with the deadline
check firing: the episode starts with accumulated elapsed `e0` and a
fresh loop record (no last timestamp), folds the loop ticks over the
timestamps in `frames`, and then the deadline check fires. -/
def timerRun (r : TRun) : TimerObs :=
  timerFire r.duration
    (r.frames.foldl timerFrame
      { elapsed := r.e0
        lastTs := none
        updates := []
        completions := 0
        active := true })

/-- Host-deliverable episode: accumulated time is non-negative and does
not exceed the configured duration when the episode starts, the deadline
check fires no earlier than the `duration - e0` delay it was armed with,
and the tick timestamps are non-decreasing and lie between the arming
point and the deadline firing point. -/
def tRunOk (r : TRun) : Prop :=
  0 ≤ r.e0 ∧ r.e0 ≤ r.duration
    ∧ r.armAt + (r.duration - r.e0) ≤ r.fireAt
    ∧ r.frames.Chain' (· ≤ ·)
    ∧ ∀ ts ∈ r.frames, r.armAt ≤ ts ∧ ts ≤ r.fireAt

/-- The episode's deadline check fired exactly when the deadline-based
primitive was asked to fire it (no extra host lag). -/
def tRunOnTime (r : TRun) : Prop :=
  r.fireAt = r.armAt + (r.duration - r.e0)

/-! ## ControlledLoop: `useRafLoop`

The loop owns `frameRef` (`none` when stopped, otherwise the mutable
record holding the stored cancel handle, the last tick timestamp and the
running average tick duration).  `live` lists the native registrations
created by this loop that are still pending in the host — each entry
keeps the id its cancel handle refers to, its current kind (a repaint
registration, or a deadline registration that turns into a repaint
registration when its deadline stage fires) and the delay it was armed
with.  `ticks` logs the `(timestamp, delta)` pairs handed to the
callback; `scheds` logs, for every tick that passed the post-flight
check, the kind and delay of the registration it armed together with the
updated running average. -/

inductive RKind
  | raf
  | timed
deriving DecidableEq

structure RegItem where
  rid : ℕ
  kind : RKind
  dly : ℚ
deriving DecidableEq

structure FrameRec where
  cnl : ℕ
  lastTs : Option ℚ
  dur : Option ℚ
deriving DecidableEq

structure LoopState where
  frameRef : Option FrameRec
  live : List RegItem
  nextId : ℕ
  activeFlag : Bool
  ticks : List (ℚ × ℚ)
  scheds : List (RKind × ℚ × ℚ)
deriving DecidableEq

def loopInit : LoopState :=
  { frameRef := none
    live := []
    nextId := 0
    activeFlag := false
    ticks := []
    scheds := [] }

/-- The source's running-average update `avg(duration, duration, delta)`:
a mean weighted toward the previous estimate. -/
def avg3 (d delta : ℚ) : ℚ := (d + d + delta) / 3

/-- `start()`: no-op if `frameRef.current !== null`; otherwise register a
repaint callback, store the fresh record, and notify the observer. -/
def loopStart (s : LoopState) : LoopState :=
  match s.frameRef with
  | some _ => s
  | none =>
      { s with
        live := s.live ++ [⟨s.nextId, RKind.raf, 0⟩]
        frameRef := some ⟨s.nextId, none, none⟩
        nextId := s.nextId + 1
        activeFlag := true }

/-- Invoking a cancel handle for registration id `i`: removes it if it is
still pending, and is a host no-op otherwise. -/
def cancelReg (live : List RegItem) (i : ℕ) : List RegItem :=
  live.filter (fun r => r.rid ≠ i)

/-- `stop()`: no-op if `frameRef.current === null`; otherwise invoke the
stored cancel handle, clear the slot, and notify the observer. -/
def loopHalt (s : LoopState) : LoopState :=
  match s.frameRef with
  | none => s
  | some fr =>
      { s with
        live := cancelReg s.live fr.cnl
        frameRef := none
        activeFlag := false }

/-- What the user-supplied callback does with the loop's control
functions during a tick: nothing, `stop()`, or `stop()` then `start()`. -/
inductive HandlerEff
  | pass
  | halt
  | haltStart
deriving DecidableEq

def applyEff (s : LoopState) : HandlerEff → LoopState
  | .pass => s
  | .halt => loopHalt s
  | .haltStart => loopStart (loopHalt s)

/-- A repaint dispatch of pending registration `rid` running the loop
body: the host consumes the registration; the body returns early when the
loop is stopped, otherwise computes `delta`, invokes the callback (which
may call the control functions), re-checks `frameRef` (post-flight
check), updates the running average and the last timestamp, and arms the
next registration — a deadline registration for `throttle` ms when
`throttle` exceeds the updated average, else a repaint registration —
storing its cancel handle in the record. -/
def loopTick (throttle : ℚ) (s : LoopState) (rid : ℕ) (ts : ℚ)
    (eff : HandlerEff) : LoopState :=
  match s.frameRef with
  | none => { s with live := s.live.filter (fun r => r.rid ≠ rid) }
  | some fr =>
      let delta := ts - (fr.lastTs.getD ts)
      let s1 := applyEff
        { s with
          live := s.live.filter (fun r => r.rid ≠ rid)
          ticks := s.ticks ++ [(ts, delta)] } eff
      match s1.frameRef with
      | none => s1
      | some fr1 =>
          let d0 := fr1.dur.getD delta
          let nd := avg3 d0 delta
          { s1 with
            live := s1.live ++ [⟨s1.nextId,
              if nd < throttle then RKind.timed else RKind.raf,
              if nd < throttle then throttle else 0⟩]
            frameRef := some ⟨s1.nextId, some ts, some nd⟩
            nextId := s1.nextId + 1
            scheds := s1.scheds ++ [(if nd < throttle then RKind.timed else RKind.raf,
              if nd < throttle then throttle else 0, nd)] }

/-- The deadline stage of a pending deadline registration fires: the
`setTimeoutFrame` instance registers its repaint callback; the same
cancel handle now refers to that repaint registration. -/
def loopDFire (s : LoopState) (rid : ℕ) : LoopState :=
  { s with
    live := s.live.map (fun r =>
      if r.rid = rid then { r with kind := RKind.raf } else r) }

inductive LoopEv
  | start
  | halt
  | tick (rid : ℕ) (ts : ℚ) (eff : HandlerEff)
  | dFire (rid : ℕ)
deriving DecidableEq

def loopStep (throttle : ℚ) (s : LoopState) : LoopEv → LoopState
  | .start => loopStart s
  | .halt => loopHalt s
  | .tick rid ts eff => loopTick throttle s rid ts eff
  | .dFire rid => loopDFire s rid

def loopRun (throttle : ℚ) (s : LoopState) (es : List LoopEv) : LoopState :=
  es.foldl (loopStep throttle) s

/-- Host-deliverable traces: a repaint dispatch consumes a pending
repaint registration, a deadline dispatch consumes the deadline stage of
a pending deadline registration; user operations are always allowed. -/
def loopGuard (s : LoopState) : LoopEv → Bool
  | .start => true
  | .halt => true
  | .tick rid _ _ => decide (∃ r ∈ s.live, r.rid = rid ∧ r.kind = RKind.raf)
  | .dFire rid => decide (∃ r ∈ s.live, r.rid = rid ∧ r.kind = RKind.timed)

def loopOk (throttle : ℚ) : LoopState → List LoopEv → Bool
  | _, [] => true
  | s, e :: es => loopGuard s e && loopOk throttle (loopStep throttle s e) es

/-- Whether the callback restricts itself to at most a `stop()` during a
tick (no restart from inside the callback). -/
def evTame : LoopEv → Bool
  | .tick _ _ .haltStart => false
  | _ => true

def tameTrace (es : List LoopEv) : Bool := es.all evTame

/-- Whether an event is not a repaint dispatch of the loop body. -/
def evNoTick : LoopEv → Bool
  | .tick _ _ _ => false
  | _ => true

/-- The single-slot ownership invariant of the controlled loop: the
active flag holds exactly when the loop tracks a frame record, a tracked
record owns exactly one live native registration — the one its stored
cancel handle refers to — and a stopped loop owns none. -/
def LoopInv (s : LoopState) : Prop :=
  (s.activeFlag = true ↔ s.frameRef.isSome = true)
    ∧ (∀ fr, s.frameRef = some fr → ∃ r, s.live = [r] ∧ r.rid = fr.cnl)
    ∧ (s.frameRef = none → s.live = [])

/-! ## Arithmetic helper lemmas -/

theorem jsTrunc_of_nonneg {q : ℚ} (h : 0 ≤ q) : jsTrunc q = ⌊q⌋ := by
  simp [jsTrunc, h]

theorem jsMod_nonneg_eq {x y : ℚ} (hx : 0 ≤ x) (hy : 0 < y) :
    jsMod x y = x - y * (⌊x / y⌋ : ℚ) := by
  have : (0 : ℚ) ≤ x / y := div_nonneg hx hy.le
  simp [jsMod, jsTrunc_of_nonneg this]

theorem trimExp_natCast (p : ℕ) : trimExp (p : ℚ) = p := by
  have h0 : (0 : ℚ) ≤ (p : ℚ) := by positivity
  have : jsTrunc (p : ℚ) = p := by
    rw [jsTrunc_of_nonneg h0]
    exact_mod_cast Int.floor_natCast p
  simp [trimExp, this]

theorem trim_nonneg {x : ℚ} (hx : 0 ≤ x) (precision : ℚ) :
    0 ≤ trim x precision := by
  unfold trim
  have hm : (0 : ℚ) < (10 : ℚ) ^ trimExp precision := by positivity
  have : (0 : ℚ) ≤ (⌊x * ((10 : ℚ) ^ trimExp precision)⌋ : ℚ) := by
    have : (0 : ℤ) ≤ ⌊x * ((10 : ℚ) ^ trimExp precision)⌋ :=
      Int.floor_nonneg.mpr (by positivity)
    exact_mod_cast this
  positivity

theorem trim_le (x precision : ℚ) : trim x precision ≤ x := by
  unfold trim
  have hm : (0 : ℚ) < (10 : ℚ) ^ trimExp precision := by positivity
  rw [div_le_iff₀ hm]
  exact Int.floor_le _

theorem normalize_mem {x : ℚ} : 0 ≤ normalize x ∧ normalize x ≤ 1 := by
  constructor
  · exact le_max_left _ _
  · simp only [normalize, clamp, max_le_iff]
    exact ⟨by norm_num, min_le_right _ _⟩

/-! ## Claim C10: `useProgress` -/

/-- Claim C10: for every input to `useProgress` the returned progress lies
in `[0, 1]`; it equals exactly `1` whenever `duration = 0` regardless of
`elapsed`; it equals `0` whenever `elapsed ≤ 0` with positive duration;
and for positive duration it equals `elapsed / duration` clamped to
`[0, 1]` and then floored to the given non-negative integer number `p` of
decimal places, so the reported progress never exceeds the true clamped
ratio. -/
theorem useProgress_spec (e d : ℚ) (p : ℕ) :
    (0 ≤ useProgress e d (p : ℚ) ∧ useProgress e d (p : ℚ) ≤ 1)
    ∧ (d = 0 → useProgress e d (p : ℚ) = 1)
    ∧ (0 < d → e ≤ 0 → useProgress e d (p : ℚ) = 0)
    ∧ (0 < d →
        useProgress e d (p : ℚ)
            = (⌊max 0 (min (e / d) 1) * (10 : ℚ) ^ p⌋ : ℚ) / (10 : ℚ) ^ p
          ∧ useProgress e d (p : ℚ) ≤ max 0 (min (e / d) 1)) := by
  by_cases hd : d = 0
  · refine ⟨⟨?_, ?_⟩, fun _ => ?_, fun h0 => absurd hd (by positivity), fun h0 => absurd hd (by positivity)⟩
    · simp [useProgress, hd]
    · simp [useProgress, hd]
    · simp [useProgress, hd]
  · have hup : useProgress e d (p : ℚ) = trim (normalize (e / d)) (p : ℚ) := by
      simp [useProgress, hd]
    have hnn : 0 ≤ normalize (e / d) := normalize_mem.1
    have hle1 : normalize (e / d) ≤ 1 := normalize_mem.2
    refine ⟨⟨?_, ?_⟩, fun h => absurd h hd, ?_, fun h0 => ⟨?_, ?_⟩⟩
    · rw [hup]; exact trim_nonneg hnn _
    · rw [hup]; exact le_trans (trim_le _ _) hle1
    · intro h0 he
      have hratio : e / d ≤ 0 := div_nonpos_iff.mpr (Or.inr ⟨he, h0.le⟩)
      have hnorm : normalize (e / d) = 0 := by
        have h1 : min (e / d) 1 = e / d := min_eq_left (le_trans hratio zero_le_one)
        simp [normalize, clamp, h1, max_eq_left hratio]
      rw [hup, hnorm]
      simp [trim]
    · rw [hup]
      simp only [trim, trimExp_natCast, normalize, clamp]
    · rw [hup]
      calc trim (normalize (e / d)) (p : ℚ) ≤ normalize (e / d) := trim_le _ _
        _ = max 0 (min (e / d) 1) := rfl

/-- Witness for C10 at concrete inputs. -/
theorem useProgress_spec_w :
    useProgress 5 0 ((4 : ℕ) : ℚ) = 1
    ∧ useProgress (-3) 7 ((4 : ℕ) : ℚ) = 0
    ∧ useProgress 1234 5000 ((2 : ℕ) : ℚ) ≤ max 0 (min ((1234 : ℚ) / 5000) 1) :=
  ⟨(useProgress_spec 5 0 4).2.1 rfl,
   (useProgress_spec (-3) 7 4).2.2.1 (by norm_num) (by norm_num),
   ((useProgress_spec 1234 5000 2).2.2.2 (by norm_num)).2⟩

/-! ## FrameAfterDelay lemmas and claim C3 -/

theorem ft_dead_run (s : FtState) (ht : s.tLive = false) (hf : s.fLive = false)
    (es : List FtEv) : ftRun s es = s := by
  induction es with
  | nil => rfl
  | cons e es ih =>
    have hs : ftStep s e = s := by
      cases e
      · simp [ftStep, ht]
      · simp [ftStep, hf]
      · cases s
        simp_all [ftStep]
    show ftRun (ftStep s e) es = s
    rw [hs, ih]

/-- Claim C3: invoking the cancel handle returned by `setFrameTimeout` at
any point prevents the handler from ever firing afterwards — it kills the
deadline timer while the deadline has not yet elapsed and the pending
repaint registration once the deadline fired — and it is a safe no-op
after the handler has fired: the number of handler invocations over the
whole trace equals the number before the cancel. -/
theorem setFrameTimeout_cancel (pre post : List FtEv) :
    (ftRun ftInit (pre ++ FtEv.cancel :: post)).fires = (ftRun ftInit pre).fires
    ∧ (ftStep (ftRun ftInit pre) FtEv.cancel).tLive = false
    ∧ (ftStep (ftRun ftInit pre) FtEv.cancel).fLive = false := by
  have h1 : ftRun ftInit (pre ++ FtEv.cancel :: post)
      = ftRun (ftStep (ftRun ftInit pre) FtEv.cancel) post := by
    simp [ftRun, List.foldl_append]
  refine ⟨?_, rfl, rfl⟩
  rw [h1, ft_dead_run _ rfl rfl]
  rfl

/-! ## Claim C4: idempotent cancel, at-most-once single-shot firing -/

theorem sf_fires_bound (es : List SfEv) (s : SfState) :
    (sfRun s es).fires + (if (sfRun s es).fLive then 1 else 0)
      ≤ s.fires + (if s.fLive then 1 else 0) := by
  induction es generalizing s with
  | nil => exact le_refl _
  | cons e es ih =>
    refine le_trans (ih (sfStep s e)) ?_
    cases e
    · by_cases h : s.fLive <;> simp [sfStep, h]
    · by_cases h : s.fLive <;> simp [sfStep, h]

theorem ft_fires_bound (es : List FtEv) (s : FtState) :
    (ftRun s es).fires
        + (if (ftRun s es).tLive then 1 else 0)
        + (if (ftRun s es).fLive then 1 else 0)
      ≤ s.fires + (if s.tLive then 1 else 0) + (if s.fLive then 1 else 0) := by
  induction es generalizing s with
  | nil => exact le_refl _
  | cons e es ih =>
    refine le_trans (ih (ftStep s e)) ?_
    cases e
    · by_cases h : s.tLive <;> by_cases h2 : s.fLive <;> simp [ftStep, h, h2]
    · by_cases h : s.tLive <;> by_cases h2 : s.fLive <;> simp [ftStep, h, h2]
    · by_cases h : s.tLive
      · by_cases h2 : s.fLive
        · simp [ftStep, h, h2]
          omega
        · simp [ftStep, h, h2]
      · by_cases h2 : s.fLive
        · simp [ftStep, h, h2]
        · simp [ftStep, h, h2]

/-- Counterexample to claim C4 as stated: the cancel handle returned by
`setFrameInterval` can be invoked after two completed iterations; nothing
faults, yet the scheduled callback has fired twice — "the scheduled
callback fires at most once in total" fails for `setFrameInterval`. -/
theorem cancel_at_most_once_cex :
    ivOk (ivInit 0 10)
        [IvEv.tFire, IvEv.fFire 10 false, IvEv.tFire, IvEv.fFire 20 false,
          IvEv.cancel] = true
    ∧ (ivRun (ivInit 0 10)
        [IvEv.tFire, IvEv.fFire 10 false, IvEv.tFire, IvEv.fFire 20 false,
          IvEv.cancel]).fires = [10, 20] := by
  decide

/-- Claim C4 (amended): for every cancel handle returned by `setFrame` or
`setFrameTimeout`, any number of invocations in any order relative to the
scheduled firing never faults (cancellation is a total, idempotent
operation) and the scheduled callback fires at most once in total; the
`setFrameInterval` cancel handle is likewise total and idempotent, but
its handler legitimately fires once per completed iteration, so
at-most-once holds per armed schedule rather than in total. -/
theorem cancel_idempotent_single_shot :
    (∀ es : List SfEv, (sfRun sfInit es).fires ≤ 1)
    ∧ (∀ es : List FtEv, (ftRun ftInit es).fires ≤ 1)
    ∧ (∀ s : SfState, sfStep (sfStep s SfEv.cancel) SfEv.cancel = sfStep s SfEv.cancel)
    ∧ (∀ s : FtState, ftStep (ftStep s FtEv.cancel) FtEv.cancel = ftStep s FtEv.cancel)
    ∧ (∀ s : IvState, ivStep (ivStep s IvEv.cancel) IvEv.cancel = ivStep s IvEv.cancel) := by
  refine ⟨fun es => ?_, fun es => ?_, fun s => rfl, fun s => rfl, fun s => rfl⟩
  · have h := sf_fires_bound es sfInit
    have h0 : sfInit.fires + (if sfInit.fLive then 1 else 0) = 1 := rfl
    rw [h0] at h
    split_ifs at h <;> omega
  · have h := ft_fires_bound es ftInit
    have h0 : ftInit.fires + (if ftInit.tLive then 1 else 0)
        + (if ftInit.fLive then 1 else 0) = 1 := rfl
    rw [h0] at h
    split_ifs at h <;> omega

theorem band_split {a b : Bool} (h : (a && b) = true) : a = true ∧ b = true := by
  constructor <;> simp_all

/-! ## Claim C5: the delay lower bound of `setFrameTimeout` -/

theorem ftt_inv_init (schedAt dly : ℚ) : FttInv schedAt dly fttInit := by
  simp [FttInv, fttInit]

theorem ftt_inv_step (schedAt dly : ℚ) (s : FttState) (e : FttEv)
    (hg : fttGuard schedAt dly s e = true) (hi : FttInv schedAt dly s) :
    FttInv schedAt dly (fttStep s e) := by
  obtain ⟨h1, h2, h3, h4, h5⟩ := hi
  cases e with
  | tFire u =>
    obtain ⟨ht, hu⟩ := band_split hg
    have hu' : schedAt + dly ≤ u := of_decide_eq_true hu
    obtain ⟨harm, hfires, hflive⟩ := h1 ht
    rw [fttStep, if_pos ht]
    refine ⟨fun hh => by simp_all, ?_, fun _ => rfl, ?_, ?_⟩
    · intro v hv
      rw [Option.some_inj] at hv
      exact hv ▸ hu'
    · intro _
      rfl
    · intro v hv ts hts
      rw [hfires] at hts
      exact absurd hts (List.not_mem_nil ts)
  | fFire ts =>
    obtain ⟨hf, harm⟩ := band_split hg
    obtain ⟨u0, hu0⟩ : ∃ u0, s.fArm = some u0 := by
      cases hfa : s.fArm with
      | none => rw [hfa] at harm; exact absurd harm (by simp)
      | some u0 => exact ⟨u0, rfl⟩
    have hle : u0 ≤ ts := by
      rw [hu0] at harm
      exact of_decide_eq_true harm
    rw [fttStep, if_pos hf]
    refine ⟨fun hh => ?_, h2, fun hh => by simp_all, fun _ => by simp [hu0], ?_⟩
    · exact absurd (h1 hh).2.2 (by simp [hf])
    · intro v hv ts' hts'
      simp only at hts' hv
      rw [hu0, Option.some_inj] at hv
      rcases List.mem_append.mp hts' with hin | hin
      · exact h5 v (by rw [hu0, hv]) ts' hin
      · rw [List.mem_singleton.mp hin, ← hv]
        exact hle
  | cancel =>
    rw [fttStep]
    exact ⟨fun hh => by simp_all, h2, fun hh => by simp_all, h4, h5⟩

theorem ftt_inv_run (schedAt dly : ℚ) (es : List FttEv) (s : FttState)
    (hok : fttOk schedAt dly s es = true) (hi : FttInv schedAt dly s) :
    FttInv schedAt dly (fttRun s es) := by
  induction es generalizing s with
  | nil => exact hi
  | cons e es ih =>
    obtain ⟨hg, hok2⟩ := band_split hok
    exact ih (fttStep s e) hok2 (ftt_inv_step schedAt dly s e hg hi)

/-- Claim C5: for every delay `dly` (in particular every `dly ≥ 0`,
including `0` or omitted, which the host treats as `0`), a
host-deliverable trace of `setFrameTimeout(h, dly)` scheduled at
`schedAt` never invokes the handler before `schedAt + dly`; moreover the
handler never fires synchronously within the scheduling call: whenever it
has fired, the deadline stage dispatched first at some `u ≥ schedAt +
dly` and every handler invocation sits at a repaint timestamp `ts ≥ u`,
i.e. one deadline dispatch followed by one repaint boundary precedes the
invocation. -/
theorem setFrameTimeout_delay_lower_bound (schedAt dly : ℚ) (es : List FttEv)
    (hok : fttOk schedAt dly fttInit es = true) :
    (∀ ts ∈ (fttRun fttInit es).fires, schedAt + dly ≤ ts)
    ∧ ((fttRun fttInit es).fires ≠ [] →
        ∃ u, (fttRun fttInit es).fArm = some u ∧ schedAt + dly ≤ u
          ∧ ∀ ts ∈ (fttRun fttInit es).fires, u ≤ ts) := by
  obtain ⟨h1, h2, h3, h4, h5⟩ :=
    ftt_inv_run schedAt dly es fttInit hok (ftt_inv_init schedAt dly)
  constructor
  · intro ts hts
    have hne : (fttRun fttInit es).fires ≠ [] := by
      intro hh
      rw [hh] at hts
      exact absurd hts (List.not_mem_nil ts)
    obtain ⟨u, hu⟩ := Option.isSome_iff_exists.mp (h4 hne)
    exact le_trans (h2 u hu) (h5 u hu ts hts)
  · intro hne
    obtain ⟨u, hu⟩ := Option.isSome_iff_exists.mp (h4 hne)
    exact ⟨u, hu, h2 u hu, h5 u hu⟩

/-- Witness for C5: scheduling at host time `0` with delay `5`, the
deadline dispatches at `6` and the repaint at `9`; the theorem yields the
lower bound `0 + 5 ≤ 9` for the single invocation. -/
theorem setFrameTimeout_delay_lower_bound_w :
    (0 : ℚ) + 5 ≤ 9
    ∧ (fttRun fttInit [FttEv.tFire 6, FttEv.fFire 9]).fires = [9] :=
  ⟨(setFrameTimeout_delay_lower_bound 0 5 [FttEv.tFire 6, FttEv.fFire 9]
      (by norm_num [fttOk, fttGuard, fttStep, fttInit])).1 9 (by decide),
   by decide⟩

/-! ## FrameInterval lemmas, claims C2 and C9 -/

theorem ivRun_append (s : IvState) (xs ys : List IvEv) :
    ivRun s (xs ++ ys) = ivRun (ivRun s xs) ys := by
  simp [ivRun, List.foldl_append]

theorem ivOk_append (s : IvState) (xs ys : List IvEv)
    (h : ivOk s (xs ++ ys) = true) : ivOk (ivRun s xs) ys = true := by
  induction xs generalizing s with
  | nil => exact h
  | cons e xs ih =>
    obtain ⟨_, h2⟩ := band_split h
    exact ih (ivStep s e) h2

theorem ivRun_const (s : IvState) (es : List IvEv) :
    (ivRun s es).started = s.started ∧ (ivRun s es).period = s.period := by
  induction es generalizing s with
  | nil => exact ⟨rfl, rfl⟩
  | cons e es ih =>
    have hstep : (ivStep s e).started = s.started ∧ (ivStep s e).period = s.period := by
      cases e <;> exact ⟨rfl, rfl⟩
    have := ih (ivStep s e)
    exact ⟨this.1.trans hstep.1, this.2.trans hstep.2⟩

/-- Claim C2: in every host-deliverable trace of
`setFrameInterval(handler, period)`, the iteration firing at timestamp
`ts` computes `elapsed = ts - started` against the `started` captured at
schedule time (which the machine preserves across iterations), sets
`drift = period > 0 ? elapsed % period : 0`, and arms the next
`setFrameTimeout` with delay `period - drift`; consequently, for a
positive period, the deadline of the next stage lands exactly on the next
whole multiple of the period after `ts`, namely
`started + period * (⌊elapsed / period⌋ + 1)`. -/
theorem setFrameInterval_drift (started period ts : ℚ) (inH : Bool)
    (pre : List IvEv)
    (hok : ivOk (ivInit started period) (pre ++ [IvEv.fFire ts inH]) = true) :
    (ivRun (ivInit started period) (pre ++ [IvEv.fFire ts inH])).curDelay
        = period - (if 0 < period then jsMod (ts - started) period else 0)
    ∧ (0 < period →
        ts + (ivRun (ivInit started period) (pre ++ [IvEv.fFire ts inH])).curDelay
          = started + period * ((⌊(ts - started) / period⌋ : ℚ) + 1)) := by
  have hconst := ivRun_const (ivInit started period) pre
  have hs : (ivRun (ivInit started period) pre).started = started := hconst.1
  have hp : (ivRun (ivInit started period) pre).period = period := hconst.2
  have hrun : ivRun (ivInit started period) (pre ++ [IvEv.fFire ts inH])
      = ivStep (ivRun (ivInit started period) pre) (IvEv.fFire ts inH) := by
    rw [ivRun_append]
    rfl
  have hcd : (ivRun (ivInit started period) (pre ++ [IvEv.fFire ts inH])).curDelay
      = ivSchedDelay started period ts := by
    rw [hrun]
    show ivSchedDelay (ivRun (ivInit started period) pre).started
        (ivRun (ivInit started period) pre).period ts = _
    rw [hs, hp]
  have hg : ivOk (ivRun (ivInit started period) pre) [IvEv.fFire ts inH] = true :=
    ivOk_append _ _ _ hok
  have hts : started ≤ ts := by
    have h1 : ivGuard (ivRun (ivInit started period) pre) (IvEv.fFire ts inH) = true :=
      (band_split hg).1
    have h2 := (band_split h1).2
    rw [hs] at h2
    exact of_decide_eq_true h2
  constructor
  · rw [hcd]
    simp [ivSchedDelay]
  · intro hper
    have h0 : (0 : ℚ) ≤ ts - started := sub_nonneg.mpr hts
    rw [hcd]
    simp only [ivSchedDelay, if_pos hper, jsMod_nonneg_eq h0 hper]
    ring

/-- Witness for C2: period `10` started at `0`; after the deadline stage,
the repaint fires at `13`; the next stage is armed with delay
`10 - (13 % 10) = 7`, whose deadline `13 + 7 = 20` is the second multiple
of the period. -/
theorem setFrameInterval_drift_w :
    (ivRun (ivInit 0 10) ([IvEv.tFire] ++ [IvEv.fFire 13 false])).curDelay
        = 10 - (if (0 : ℚ) < 10 then jsMod (13 - 0) 10 else 0)
    ∧ (13 : ℚ)
          + (ivRun (ivInit 0 10) ([IvEv.tFire] ++ [IvEv.fFire 13 false])).curDelay
        = 0 + 10 * ((⌊((13 : ℚ) - 0) / 10⌋ : ℚ) + 1) :=
  ⟨(setFrameInterval_drift 0 10 13 false [IvEv.tFire] (by decide)).1,
   (setFrameInterval_drift 0 10 13 false [IvEv.tFire] (by decide)).2 (by norm_num)⟩

/-- Counterexample to claim C9 as stated: with period `10` started at
`0`, the handler of the iteration firing at `13` invokes the returned
cancel handle from inside the handler (`cancelInHandler = true`); at that
moment the tracked cell still holds the handle of the schedule that just
fired, so the invocation is a no-op, the wrapper still arms the next
iteration after the handler returns, and that iteration fires at `20` —
cancel invoked from inside the handler does not stop future
iterations. -/
theorem setFrameInterval_cancel_inside_cex :
    ivOk (ivInit 0 10)
        [IvEv.tFire, IvEv.fFire 13 true, IvEv.tFire, IvEv.fFire 20 false] = true
    ∧ (ivRun (ivInit 0 10)
        [IvEv.tFire, IvEv.fFire 13 true, IvEv.tFire, IvEv.fFire 20 false]).fires
        = [13, 20] := by
  decide

theorem iv_dead_fires (es : List IvEv) (s : IvState) (ht : s.cur.tLive = false)
    (hf : s.cur.fLive = false) (hok : ivOk s es = true) :
    (ivRun s es).fires = s.fires := by
  induction es generalizing s with
  | nil => rfl
  | cons e es ih =>
    obtain ⟨hg, hok2⟩ := band_split hok
    cases e with
    | tFire => simp [ivGuard, ht] at hg
    | fFire ts inH => simp [ivGuard, hf] at hg
    | cancel =>
      show (ivRun (ivStep s IvEv.cancel) es).fires = s.fires
      rw [ih (ivStep s IvEv.cancel) (by simp [ivStep, ftStep]) (by simp [ivStep, ftStep]) hok2]
      rfl

/-- Claim C9 (amended): invoking the cancel handle returned by
`setFrameInterval` at any point outside the handler of a currently
executing iteration stops all future iterations — an iteration in flight
(deadline timer armed or repaint pending) never fires after the cancel,
because each reschedule mints a fresh handle stored in the tracked cell
and the returned cancel targets the latest pending schedule.  (A cancel
invoked from inside the handler, by contrast, targets the already-fired
schedule and does not prevent the reschedule issued when the handler
returns — see the counterexample.) -/
theorem setFrameInterval_cancel_stops (started period : ℚ)
    (pre post : List IvEv)
    (hok : ivOk (ivInit started period) (pre ++ IvEv.cancel :: post) = true) :
    (ivRun (ivInit started period) (pre ++ IvEv.cancel :: post)).fires
      = (ivRun (ivInit started period) pre).fires := by
  have h2 : ivOk (ivRun (ivInit started period) pre) (IvEv.cancel :: post) = true :=
    ivOk_append _ _ _ hok
  have h3 := (band_split h2).2
  rw [ivRun_append]
  show (ivRun (ivStep (ivRun (ivInit started period) pre) IvEv.cancel) post).fires = _
  rw [iv_dead_fires post _ (by simp [ivStep, ftStep]) (by simp [ivStep, ftStep]) h3]
  rfl

/-- Witness for C9 (amended): one iteration fires at `13`, then the
cancel handle is invoked (twice) at top level; no further iteration ever
fires. -/
theorem setFrameInterval_cancel_stops_w :
    (ivRun (ivInit 0 10)
        ([IvEv.tFire, IvEv.fFire 13 false] ++ IvEv.cancel :: [IvEv.cancel])).fires
      = [13] := by
  rw [setFrameInterval_cancel_stops 0 10 [IvEv.tFire, IvEv.fFire 13 false]
      [IvEv.cancel] (by decide)]
  decide

/-! ## ControlledLoop lemmas and claim C6 -/

theorem loopRun_append (throttle : ℚ) (s : LoopState) (xs ys : List LoopEv) :
    loopRun throttle s (xs ++ ys) = loopRun throttle (loopRun throttle s xs) ys := by
  simp [loopRun, List.foldl_append]

theorem loopOk_append (throttle : ℚ) (s : LoopState) (xs ys : List LoopEv)
    (h : loopOk throttle s (xs ++ ys) = true) :
    loopOk throttle (loopRun throttle s xs) ys = true := by
  induction xs generalizing s with
  | nil => exact h
  | cons e xs ih => exact ih (loopStep throttle s e) (band_split h).2

theorem loopStart_scheds (s : LoopState) : (loopStart s).scheds = s.scheds := by
  unfold loopStart
  cases s.frameRef <;> rfl

theorem loopHalt_scheds (s : LoopState) : (loopHalt s).scheds = s.scheds := by
  unfold loopHalt
  cases s.frameRef <;> rfl

theorem applyEff_scheds (s : LoopState) (eff : HandlerEff) :
    (applyEff s eff).scheds = s.scheds := by
  cases eff with
  | pass => rfl
  | halt => exact loopHalt_scheds s
  | haltStart =>
    show (loopStart (loopHalt s)).scheds = s.scheds
    rw [loopStart_scheds, loopHalt_scheds]

theorem loopTick_scheds (throttle : ℚ) (s : LoopState) (rid : ℕ) (ts : ℚ)
    (eff : HandlerEff) :
    (loopTick throttle s rid ts eff).scheds = s.scheds
    ∨ ∃ nd, (loopTick throttle s rid ts eff).scheds
        = s.scheds ++ [(if nd < throttle then RKind.timed else RKind.raf,
            if nd < throttle then throttle else 0, nd)] := by
  unfold loopTick
  split
  · exact Or.inl rfl
  · dsimp only
    split
    · exact Or.inl (applyEff_scheds _ eff)
    · right
      rename_i x1 fr hfr x2 fr1 hfr1
      refine ⟨avg3 (fr1.dur.getD (ts - fr.lastTs.getD ts)) (ts - fr.lastTs.getD ts), ?_⟩
      show (applyEff _ eff).scheds ++ _ = s.scheds ++ _
      rw [applyEff_scheds _ eff]

theorem loop_scheds_sound (throttle : ℚ) (es : List LoopEv) (s : LoopState)
    (h : ∀ x ∈ s.scheds,
      ((x.1 = RKind.timed ∧ x.2.1 = throttle) ↔ x.2.2 < throttle)
      ∧ (x.1 = RKind.raf ↔ ¬ x.2.2 < throttle)) :
    ∀ x ∈ (loopRun throttle s es).scheds,
      ((x.1 = RKind.timed ∧ x.2.1 = throttle) ↔ x.2.2 < throttle)
      ∧ (x.1 = RKind.raf ↔ ¬ x.2.2 < throttle) := by
  induction es generalizing s with
  | nil => exact h
  | cons e es ih =>
    refine ih (loopStep throttle s e) ?_
    intro x hx
    cases e with
    | start =>
      rw [show loopStep throttle s LoopEv.start = loopStart s from rfl,
        loopStart_scheds] at hx
      exact h x hx
    | halt =>
      rw [show loopStep throttle s LoopEv.halt = loopHalt s from rfl,
        loopHalt_scheds] at hx
      exact h x hx
    | dFire rid => exact h x hx
    | tick rid ts eff =>
      rcases loopTick_scheds throttle s rid ts eff with hcase | ⟨nd, hcase⟩
      · rw [show loopStep throttle s (LoopEv.tick rid ts eff)
            = loopTick throttle s rid ts eff from rfl, hcase] at hx
        exact h x hx
      · rw [show loopStep throttle s (LoopEv.tick rid ts eff)
            = loopTick throttle s rid ts eff from rfl, hcase] at hx
        rcases List.mem_append.mp hx with hold | hnew
        · exact h x hold
        · rw [List.mem_singleton.mp hnew]
          by_cases hnd : nd < throttle <;> simp [hnd]

/-- Claim C6: on every tick of a running controlled loop that passes the
post-flight active check, the next tick is scheduled via the deadline
primitive with delay equal to the configured `throttle` value if and only
if `throttle` strictly exceeds the updated running average tick duration;
otherwise the next repaint is requested directly.  Every entry of the
`scheds` log is produced by exactly one such tick and records the armed
registration's kind, its delay, and the running average the decision was
taken against. -/
theorem useRafLoop_throttle_decision (throttle : ℚ) (es : List LoopEv) :
    ∀ x ∈ (loopRun throttle loopInit es).scheds,
      ((x.1 = RKind.timed ∧ x.2.1 = throttle) ↔ x.2.2 < throttle)
      ∧ (x.1 = RKind.raf ↔ ¬ x.2.2 < throttle) :=
  loop_scheds_sound throttle es loopInit (by
    intro x hx
    exact absurd hx (List.not_mem_nil x))

/-- Witness for C6: with `throttle = 10`, the first tick (delta `0`,
running average `0 < 10`) arms a deadline registration with delay exactly
`10`. -/
theorem useRafLoop_throttle_decision_w :
    ((RKind.timed = RKind.timed ∧ (10 : ℚ) = 10) ↔ (0 : ℚ) < 10)
    ∧ (RKind.timed = RKind.raf ↔ ¬ (0 : ℚ) < 10) :=
  useRafLoop_throttle_decision 10 [LoopEv.start, LoopEv.tick 0 5 HandlerEff.pass]
    (RKind.timed, 10, 0)
    (by norm_num [loopRun, loopStep, loopTick, loopStart, applyEff, avg3, loopInit])

/-! ## ControlledLoop single-slot invariant -/

theorem loop_inv_init : LoopInv loopInit := by
  refine ⟨by simp [loopInit], ?_, fun _ => rfl⟩
  intro fr hfr
  simp [loopInit] at hfr

theorem loopStart_of_none {s : LoopState} (hfr : s.frameRef = none) :
    loopStart s = { s with
      live := s.live ++ [⟨s.nextId, RKind.raf, 0⟩]
      frameRef := some ⟨s.nextId, none, none⟩
      nextId := s.nextId + 1
      activeFlag := true } := by
  unfold loopStart
  rw [hfr]

theorem loopStart_of_some {s : LoopState} {fr : FrameRec}
    (hfr : s.frameRef = some fr) : loopStart s = s := by
  unfold loopStart
  rw [hfr]

theorem loopHalt_of_none {s : LoopState} (hfr : s.frameRef = none) :
    loopHalt s = s := by
  unfold loopHalt
  rw [hfr]

theorem loopHalt_of_some {s : LoopState} {fr : FrameRec}
    (hfr : s.frameRef = some fr) :
    loopHalt s = { s with
      live := cancelReg s.live fr.cnl
      frameRef := none
      activeFlag := false } := by
  unfold loopHalt
  rw [hfr]

theorem loopTick_pass_eq (throttle : ℚ) (s : LoopState) (rid : ℕ) (ts : ℚ)
    {fr : FrameRec} (hfr : s.frameRef = some fr) :
    loopTick throttle s rid ts HandlerEff.pass
      = { s with
          live := s.live.filter (fun q => q.rid ≠ rid)
            ++ [⟨s.nextId,
              if avg3 (fr.dur.getD (ts - fr.lastTs.getD ts)) (ts - fr.lastTs.getD ts) < throttle
                then RKind.timed else RKind.raf,
              if avg3 (fr.dur.getD (ts - fr.lastTs.getD ts)) (ts - fr.lastTs.getD ts) < throttle
                then throttle else 0⟩]
          frameRef := some ⟨s.nextId, some ts,
            some (avg3 (fr.dur.getD (ts - fr.lastTs.getD ts)) (ts - fr.lastTs.getD ts))⟩
          nextId := s.nextId + 1
          ticks := s.ticks ++ [(ts, ts - fr.lastTs.getD ts)]
          scheds := s.scheds
            ++ [(if avg3 (fr.dur.getD (ts - fr.lastTs.getD ts)) (ts - fr.lastTs.getD ts) < throttle
                  then RKind.timed else RKind.raf,
                if avg3 (fr.dur.getD (ts - fr.lastTs.getD ts)) (ts - fr.lastTs.getD ts) < throttle
                  then throttle else 0,
                avg3 (fr.dur.getD (ts - fr.lastTs.getD ts)) (ts - fr.lastTs.getD ts))] } := by
  unfold loopTick
  rw [hfr]
  rfl

theorem loopTick_halt_eq (throttle : ℚ) (s : LoopState) (rid : ℕ) (ts : ℚ)
    {fr : FrameRec} (hfr : s.frameRef = some fr) :
    loopTick throttle s rid ts HandlerEff.halt
      = { s with
          live := cancelReg (s.live.filter (fun q => q.rid ≠ rid)) fr.cnl
          frameRef := none
          activeFlag := false
          ticks := s.ticks ++ [(ts, ts - fr.lastTs.getD ts)] } := by
  unfold loopTick
  rw [hfr]
  dsimp only [applyEff, loopHalt]

theorem loopTick_of_none (throttle : ℚ) (s : LoopState) (rid : ℕ) (ts : ℚ)
    (eff : HandlerEff) (hfr : s.frameRef = none) :
    loopTick throttle s rid ts eff
      = { s with live := s.live.filter (fun r => r.rid ≠ rid) } := by
  unfold loopTick
  rw [hfr]

theorem loop_inv_start (s : LoopState) (hinv : LoopInv s) :
    LoopInv (loopStart s) := by
  cases hfr : s.frameRef with
  | some fr => rw [loopStart_of_some hfr]; exact hinv
  | none =>
    rw [loopStart_of_none hfr, hinv.2.2 hfr]
    refine ⟨by simp, ?_, by simp⟩
    intro fr2 hfr2
    refine ⟨⟨s.nextId, RKind.raf, 0⟩, by simp, ?_⟩
    have h2 : (⟨s.nextId, none, none⟩ : FrameRec) = fr2 := by
      simpa using hfr2
    rw [← h2]

theorem loop_inv_halt (s : LoopState) (hinv : LoopInv s) :
    LoopInv (loopHalt s) := by
  cases hfr : s.frameRef with
  | none => rw [loopHalt_of_none hfr]; exact hinv
  | some fr =>
    obtain ⟨r, hr, hrid⟩ := hinv.2.1 fr hfr
    rw [loopHalt_of_some hfr]
    have hfil : cancelReg s.live fr.cnl = [] := by
      rw [hr, cancelReg]
      simp [hrid]
    exact ⟨by simp, by simp, fun _ => hfil⟩

theorem loop_inv_dFire (s : LoopState) (rid : ℕ) (hinv : LoopInv s) :
    LoopInv (loopDFire s rid) := by
  refine ⟨hinv.1, ?_, ?_⟩
  · intro fr hfr
    obtain ⟨r, hr, hrid⟩ := hinv.2.1 fr hfr
    by_cases h : r.rid = rid
    · refine ⟨{ r with kind := RKind.raf }, ?_, hrid⟩
      show s.live.map _ = _
      rw [hr]
      simp [h]
    · refine ⟨r, ?_, hrid⟩
      show s.live.map _ = _
      rw [hr]
      simp [h]
  · intro hfr
    show s.live.map _ = []
    rw [hinv.2.2 hfr]
    rfl

theorem loop_inv_tick (throttle : ℚ) (s : LoopState) (rid : ℕ) (ts : ℚ)
    (eff : HandlerEff) (heff : eff ≠ HandlerEff.haltStart)
    (hg : loopGuard s (LoopEv.tick rid ts eff) = true) (hinv : LoopInv s) :
    LoopInv (loopTick throttle s rid ts eff) := by
  obtain ⟨r, hrmem, hrrid, hrkind⟩ :
      ∃ r ∈ s.live, r.rid = rid ∧ r.kind = RKind.raf := of_decide_eq_true hg
  cases hfr : s.frameRef with
  | none =>
    exfalso
    rw [hinv.2.2 hfr] at hrmem
    exact List.not_mem_nil r hrmem
  | some fr =>
    obtain ⟨r', hr', hcnl⟩ := hinv.2.1 fr hfr
    have hrr : r = r' := by
      rw [hr'] at hrmem
      simpa using hrmem
    have hact : s.activeFlag = true := hinv.1.mpr (by rw [hfr]; rfl)
    have hfil : s.live.filter (fun q => q.rid ≠ rid) = [] := by
      rw [hr', ← hrr]
      simp [hrrid]
    cases eff with
    | haltStart => exact absurd rfl heff
    | pass =>
      rw [loopTick_pass_eq throttle s rid ts hfr, hfil]
      refine ⟨by simp [hact], ?_, by simp⟩
      intro fr2 hfr2
      have h2 : (⟨s.nextId, some ts,
          some (avg3 (fr.dur.getD (ts - fr.lastTs.getD ts)) (ts - fr.lastTs.getD ts))⟩ :
            FrameRec) = fr2 := by
        simpa using hfr2
      refine ⟨_, rfl, ?_⟩
      rw [← h2]
    | halt =>
      rw [loopTick_halt_eq throttle s rid ts hfr, hfil]
      exact ⟨by simp, by simp, fun _ => rfl⟩

theorem loop_inv_step (throttle : ℚ) (s : LoopState) (e : LoopEv)
    (htame : evTame e = true) (hg : loopGuard s e = true) (hinv : LoopInv s) :
    LoopInv (loopStep throttle s e) := by
  cases e with
  | start => exact loop_inv_start s hinv
  | halt => exact loop_inv_halt s hinv
  | dFire rid => exact loop_inv_dFire s rid hinv
  | tick rid ts eff =>
    refine loop_inv_tick throttle s rid ts eff ?_ hg hinv
    intro heq
    rw [heq] at htame
    exact absurd htame (by simp [evTame])

theorem loop_inv_run (throttle : ℚ) (es : List LoopEv) (s : LoopState)
    (htame : tameTrace es = true) (hok : loopOk throttle s es = true)
    (hinv : LoopInv s) : LoopInv (loopRun throttle s es) := by
  induction es generalizing s with
  | nil => exact hinv
  | cons e es ih =>
    have h1 : evTame e = true ∧ tameTrace es = true := by
      simpa [tameTrace] using htame
    obtain ⟨hg, hok2⟩ := band_split hok
    exact ih (loopStep throttle s e) h1.2 hok2
      (loop_inv_step throttle s e h1.1 hg hinv)

theorem loopOk_prefix (throttle : ℚ) (s : LoopState) (xs ys : List LoopEv)
    (h : loopOk throttle s (xs ++ ys) = true) : loopOk throttle s xs = true := by
  induction xs generalizing s with
  | nil => rfl
  | cons e xs ih =>
    obtain ⟨hg, h2⟩ := band_split h
    show (loopGuard s e && loopOk throttle (loopStep throttle s e) xs) = true
    rw [hg, ih (loopStep throttle s e) h2]
    rfl

theorem applyEff_ticks (s : LoopState) (eff : HandlerEff) :
    (applyEff s eff).ticks = s.ticks := by
  cases eff with
  | pass => rfl
  | halt =>
    show (loopHalt s).ticks = s.ticks
    unfold loopHalt
    cases s.frameRef <;> rfl
  | haltStart =>
    show (loopStart (loopHalt s)).ticks = s.ticks
    have h1 : (loopStart (loopHalt s)).ticks = (loopHalt s).ticks := by
      unfold loopStart
      cases (loopHalt s).frameRef <;> rfl
    rw [h1]
    unfold loopHalt
    cases s.frameRef <;> rfl

theorem loopTick_ticks (throttle : ℚ) (s : LoopState) (rid : ℕ) (ts : ℚ)
    (eff : HandlerEff) {fr : FrameRec} (hfr : s.frameRef = some fr) :
    (loopTick throttle s rid ts eff).ticks
      = s.ticks ++ [(ts, ts - fr.lastTs.getD ts)] := by
  unfold loopTick
  rw [hfr]
  dsimp only
  split
  · exact applyEff_ticks _ eff
  · show (applyEff _ eff).ticks = _
    exact applyEff_ticks _ eff

/-- While the loop holds a frame record whose last-tick timestamp is
still unset, any non-tick operation keeps it unset (or clears the record
altogether). -/
theorem loop_fresh_step (throttle : ℚ) (s : LoopState) (e : LoopEv)
    (hnt : evNoTick e = true)
    (h : ∀ fr, s.frameRef = some fr → fr.lastTs = none) :
    ∀ fr, (loopStep throttle s e).frameRef = some fr → fr.lastTs = none := by
  cases e with
  | start =>
    intro fr hfr
    cases hfr0 : s.frameRef with
    | some fr0 =>
      rw [show loopStep throttle s LoopEv.start = loopStart s from rfl,
        loopStart_of_some hfr0] at hfr
      exact h fr hfr
    | none =>
      rw [show loopStep throttle s LoopEv.start = loopStart s from rfl,
        loopStart_of_none hfr0] at hfr
      have h2 : (⟨s.nextId, none, none⟩ : FrameRec) = fr := by simpa using hfr
      rw [← h2]
  | halt =>
    intro fr hfr
    cases hfr0 : s.frameRef with
    | none =>
      rw [show loopStep throttle s LoopEv.halt = loopHalt s from rfl,
        loopHalt_of_none hfr0] at hfr
      exact h fr hfr
    | some fr0 =>
      rw [show loopStep throttle s LoopEv.halt = loopHalt s from rfl,
        loopHalt_of_some hfr0] at hfr
      exact absurd hfr (by simp)
  | dFire rid => exact h
  | tick rid ts eff => exact absurd hnt (by simp [evNoTick])

theorem loop_fresh_run (throttle : ℚ) (es : List LoopEv) (s : LoopState)
    (hnt : es.all evNoTick = true)
    (h : ∀ fr, s.frameRef = some fr → fr.lastTs = none) :
    ∀ fr, (loopRun throttle s es).frameRef = some fr → fr.lastTs = none := by
  induction es generalizing s with
  | nil => exact h
  | cons e es ih =>
    have h1 : evNoTick e = true ∧ es.all evNoTick = true := by simpa using hnt
    exact ih (loopStep throttle s e) h1.2 (loop_fresh_step throttle s e h1.1 h)

/-! ## Claims C7 and C8 -/

/-- Counterexample to claim C8 as stated: a valid operation sequence in
which the callback of the first tick calls `stop()` and then `start()`
leaves the loop active while owning two live native registrations — the
registration armed by the in-callback `start()` (whose stored cancel
handle the tick's rescheduling step then overwrites) and the registration
armed by that rescheduling step — so "active iff exactly one live pending
registration" fails. -/
theorem useRafLoop_single_slot_cex :
    loopOk 0 loopInit [LoopEv.start, LoopEv.tick 0 16 HandlerEff.haltStart] = true
    ∧ (loopRun 0 loopInit
        [LoopEv.start, LoopEv.tick 0 16 HandlerEff.haltStart]).activeFlag = true
    ∧ (loopRun 0 loopInit
        [LoopEv.start, LoopEv.tick 0 16 HandlerEff.haltStart]).live.length = 2 := by
  refine ⟨by decide, by decide, by decide⟩

/-- Claim C8 (amended): for every controlled-loop operation sequence in
which the callback performs at most a `stop()` from inside a tick (no
restart from inside the callback), `start()` is a no-op when already
running, `stop()` is a no-op when already stopped, the loop is active if
and only if it holds exactly one live pending native registration — the
one its stored cancel handle refers to, never both kinds and never more
than one — and `stop()` unconditionally clears that single slot.  (A
callback that calls `stop()` then `start()` inside a tick breaks the
single-slot property — see the counterexample.) -/
theorem useRafLoop_state_machine (throttle : ℚ) (es : List LoopEv)
    (htame : tameTrace es = true) (hok : loopOk throttle loopInit es = true) :
    ((loopRun throttle loopInit es).activeFlag = true
        ↔ (loopRun throttle loopInit es).frameRef.isSome = true)
    ∧ (∀ fr, (loopRun throttle loopInit es).frameRef = some fr →
        ∃ r, (loopRun throttle loopInit es).live = [r] ∧ r.rid = fr.cnl)
    ∧ ((loopRun throttle loopInit es).frameRef = none →
        (loopRun throttle loopInit es).live = [])
    ∧ (∀ fr, (loopRun throttle loopInit es).frameRef = some fr →
        loopStart (loopRun throttle loopInit es) = loopRun throttle loopInit es)
    ∧ ((loopRun throttle loopInit es).frameRef = none →
        loopHalt (loopRun throttle loopInit es) = loopRun throttle loopInit es)
    ∧ (loopHalt (loopRun throttle loopInit es)).frameRef = none
    ∧ (loopHalt (loopRun throttle loopInit es)).live = [] := by
  have hinv := loop_inv_run throttle es loopInit htame hok loop_inv_init
  refine ⟨hinv.1, hinv.2.1, hinv.2.2, ?_, ?_, ?_, ?_⟩
  · intro fr hfr
    exact loopStart_of_some hfr
  · intro hfr
    exact loopHalt_of_none hfr
  · cases hfr : (loopRun throttle loopInit es).frameRef with
    | none => rw [loopHalt_of_none hfr]; exact hfr
    | some fr => rw [loopHalt_of_some hfr]
  · cases hfr : (loopRun throttle loopInit es).frameRef with
    | none => rw [loopHalt_of_none hfr]; exact hinv.2.2 hfr
    | some fr =>
      obtain ⟨r, hr, hrid⟩ := hinv.2.1 fr hfr
      rw [loopHalt_of_some hfr]
      show cancelReg (loopRun throttle loopInit es).live fr.cnl = []
      rw [hr, cancelReg]
      simp [hrid]

/-- Witness for C8 (amended) on a concrete run: after a start and one
plain tick, invoking `stop()` leaves no live registration. -/
theorem useRafLoop_state_machine_w :
    (loopHalt (loopRun 0 loopInit
      [LoopEv.start, LoopEv.tick 0 16 HandlerEff.pass])).live = [] :=
  (useRafLoop_state_machine 0 [LoopEv.start, LoopEv.tick 0 16 HandlerEff.pass]
    (by decide) (by decide)).2.2.2.2.2.2

/-- Counterexample to claim C7 as stated: the callback of the tick at
timestamp `16` calls `stop()` then `start()`; the enclosing tick then
records its own timestamp into the freshly started run's record, so the
first tick after that `start()` (at timestamp `32`) reports
`delta = 16`, not `0`. -/
theorem useRafLoop_first_tick_delta_cex :
    loopOk 0 loopInit
        [LoopEv.start, LoopEv.tick 0 16 HandlerEff.haltStart,
          LoopEv.tick 1 32 HandlerEff.pass] = true
    ∧ (loopRun 0 loopInit
        [LoopEv.start, LoopEv.tick 0 16 HandlerEff.haltStart,
          LoopEv.tick 1 32 HandlerEff.pass]).ticks = [(16, 0), (32, 16)] := by
  constructor
  · decide
  · norm_num [loopRun, loopStep, loopTick, loopStart, loopHalt, applyEff,
      avg3, loopInit, cancelReg]

/-- Claim C7 (amended): on every tick the callback receives
`delta = timestamp - lastTickTimestamp` (with the last timestamp treated
as "now" when unset); and whenever `start()` is invoked while the loop is
stopped and outside a tick dispatch, and the callback performs at most a
`stop()` inside ticks, the first tick of the new run is logged with
`delta = 0` — no spurious large delta.  (A `start()` issued from inside a
tick's callback after a `stop()` does not enjoy this: the enclosing tick
writes its timestamp into the fresh record — see the counterexample.) -/
theorem useRafLoop_first_tick_delta (throttle : ℚ) :
    (∀ (es : List LoopEv) (rid : ℕ) (ts : ℚ) (eff : HandlerEff) (fr : FrameRec),
        (loopRun throttle loopInit es).frameRef = some fr →
        (loopRun throttle loopInit (es ++ [LoopEv.tick rid ts eff])).ticks
          = (loopRun throttle loopInit es).ticks ++ [(ts, ts - fr.lastTs.getD ts)])
    ∧ (∀ (p1 p2 : List LoopEv) (rid : ℕ) (ts : ℚ) (eff : HandlerEff),
        (loopRun throttle loopInit p1).frameRef = none →
        p2.all evNoTick = true →
        tameTrace (p1 ++ LoopEv.start :: p2) = true →
        loopOk throttle loopInit
          ((p1 ++ LoopEv.start :: p2) ++ [LoopEv.tick rid ts eff]) = true →
        (loopRun throttle loopInit
            ((p1 ++ LoopEv.start :: p2) ++ [LoopEv.tick rid ts eff])).ticks.getLast?
          = some (ts, 0)) := by
  constructor
  · intro es rid ts eff fr hfr
    rw [loopRun_append]
    show (loopTick throttle (loopRun throttle loopInit es) rid ts eff).ticks = _
    rw [loopTick_ticks throttle _ rid ts eff hfr]
  · intro p1 p2 rid ts eff hstop hnt htame hok
    have hokPre : loopOk throttle loopInit (p1 ++ LoopEv.start :: p2) = true :=
      loopOk_prefix throttle loopInit _ _ hok
    have hinvC : LoopInv (loopRun throttle loopInit (p1 ++ LoopEv.start :: p2)) :=
      loop_inv_run throttle _ loopInit htame hokPre loop_inv_init
    have hrw : loopRun throttle loopInit (p1 ++ LoopEv.start :: p2)
        = loopRun throttle
            (loopStep throttle (loopRun throttle loopInit p1) LoopEv.start) p2 := by
      rw [show p1 ++ LoopEv.start :: p2 = (p1 ++ [LoopEv.start]) ++ p2 by simp,
        loopRun_append, loopRun_append]
      rfl
    have hfreshB : ∀ fr,
        (loopStep throttle (loopRun throttle loopInit p1) LoopEv.start).frameRef
          = some fr → fr.lastTs = none := by
      intro fr hfr
      rw [show loopStep throttle (loopRun throttle loopInit p1) LoopEv.start
          = loopStart (loopRun throttle loopInit p1) from rfl,
        loopStart_of_none hstop] at hfr
      have h2 : (⟨(loopRun throttle loopInit p1).nextId, none, none⟩ : FrameRec)
          = fr := by simpa using hfr
      rw [← h2]
    have hfreshC : ∀ fr,
        (loopRun throttle loopInit (p1 ++ LoopEv.start :: p2)).frameRef = some fr →
          fr.lastTs = none := by
      rw [hrw]
      exact loop_fresh_run throttle p2 _ hnt hfreshB
    have hokTick : loopOk throttle
        (loopRun throttle loopInit (p1 ++ LoopEv.start :: p2))
        [LoopEv.tick rid ts eff] = true :=
      loopOk_append throttle loopInit _ _ hok
    have hg := (band_split hokTick).1
    obtain ⟨r, hrmem, -, -⟩ :
        ∃ r ∈ (loopRun throttle loopInit (p1 ++ LoopEv.start :: p2)).live,
          r.rid = rid ∧ r.kind = RKind.raf := of_decide_eq_true hg
    cases hfrC : (loopRun throttle loopInit (p1 ++ LoopEv.start :: p2)).frameRef with
    | none =>
      exfalso
      rw [hinvC.2.2 hfrC] at hrmem
      exact List.not_mem_nil r hrmem
    | some fr =>
      have hlast : fr.lastTs = none := hfreshC fr hfrC
      rw [loopRun_append]
      show (loopTick throttle
        (loopRun throttle loopInit (p1 ++ LoopEv.start :: p2)) rid ts eff).ticks.getLast? = _
      rw [loopTick_ticks throttle _ rid ts eff hfrC, hlast]
      simp

/-- Witness for C7 (amended): a single top-level start followed by one
tick at timestamp `7` logs `delta = 0`. -/
theorem useRafLoop_first_tick_delta_w :
    (loopRun 0 loopInit
        (([] ++ LoopEv.start :: []) ++ [LoopEv.tick 0 7 HandlerEff.pass])).ticks.getLast?
      = some (7, 0) :=
  (useRafLoop_first_tick_delta 0).2 [] [] 0 7 HandlerEff.pass rfl rfl
    (by decide) (by decide)

/-! ## DerivedTimer lemmas and claim C1 -/

theorem timerFrame_foldl_const (fs : List ℚ) (s : TimerObs) :
    (fs.foldl timerFrame s).completions = s.completions
    ∧ (fs.foldl timerFrame s).active = s.active := by
  induction fs generalizing s with
  | nil => exact ⟨rfl, rfl⟩
  | cons t fs ih => exact ⟨(ih (timerFrame s t)).1, (ih (timerFrame s t)).2⟩

theorem timerFrame_foldl_elapsed (fs : List ℚ) (e l : ℚ) (us : List ℚ)
    (c : ℕ) (a : Bool) :
    (fs.foldl timerFrame ⟨e, some l, us, c, a⟩).elapsed
      = e + (fs.getLastD l - l) := by
  induction fs generalizing e l us with
  | nil => simp [List.getLastD]
  | cons t fs ih =>
    show (fs.foldl timerFrame
      ⟨e + (t - l), some t, us ++ [e + (t - l)], c, a⟩).elapsed = _
    rw [ih (e + (t - l)) t (us ++ [e + (t - l)]), List.getLastD_cons]
    ring

/-- Counterexample to claim C1 as stated: a host-deliverable episode in
which the deadline check dispatches late (at `150`, no earlier than its
requested `100` ms — the deadline primitive guarantees only a minimum
delay) while repaint ticks keep accumulating until `149`.  At the moment
completion fires, the code sets `elapsed` to
`Math.max(elapsed, duration) = max 149 100 = 149`, which exceeds the
configured duration `100` — `Math.max` clamps from below, not from
above, so "elapsed never exceeds duration at the moment completion
fires" fails. -/
theorem useRafTimer_clamp_cex :
    tRunOk ⟨100, 0, 0, [0, 149], 150⟩
    ∧ (timerRun ⟨100, 0, 0, [0, 149], 150⟩).elapsed = 149
    ∧ (100 : ℚ) < (timerRun ⟨100, 0, 0, [0, 149], 150⟩).elapsed := by
  refine ⟨?_, ?_, ?_⟩
  · norm_num [tRunOk, List.chain'_cons]
  · norm_num [timerRun, timerFrame, timerFire, max_def]
  · norm_num [timerRun, timerFrame, timerFire, max_def]

/-- Claim C1 (amended): for every host-deliverable episode of a started
timer that ends with the side deadline check firing, the check sets
`elapsed` to `Math.max(accumulated, duration)` — hence at least
`duration`, never below it — invokes `onUpdate` one final time with
exactly that value, stops the loop, and invokes `onComplete` exactly
once.  When the deadline check dispatches exactly at its scheduled point
(`armAt + (duration - elapsed₀)`, no host lag), the accumulated tick
deltas cannot have exceeded `duration` (they telescope to at most the
time between arming and dispatch), so the final value is exactly
`duration` and elapsed does not exceed duration at completion.  A late
deadline dispatch can leave `elapsed` above `duration` — see the
counterexample. -/
theorem useRafTimer_completion (r : TRun) (hok : tRunOk r) :
    (r.duration ≤ (timerRun r).elapsed
      ∧ (timerRun r).completions = 1
      ∧ (timerRun r).active = false
      ∧ (timerRun r).updates.getLast? = some ((timerRun r).elapsed))
    ∧ (tRunOnTime r → (timerRun r).elapsed = r.duration) := by
  obtain ⟨he0, he0d, hfire, hchain, hmem⟩ := hok
  have hconst := timerFrame_foldl_const r.frames
    ⟨r.e0, none, [], 0, true⟩
  refine ⟨⟨le_max_right _ _, ?_, rfl, ?_⟩, ?_⟩
  · show (r.frames.foldl timerFrame _).completions + 1 = 1
    rw [hconst.1]
  · exact List.getLast?_concat _
  · intro hot
    rw [tRunOnTime] at hot
    show max (r.frames.foldl timerFrame ⟨r.e0, none, [], 0, true⟩).elapsed r.duration
      = r.duration
    have hbase : (r.frames.foldl timerFrame ⟨r.e0, none, [], 0, true⟩).elapsed
        ≤ r.duration := by
      cases hfs : r.frames with
      | nil => simpa using he0d
      | cons t fs =>
        have h1 : (fs.foldl timerFrame
            (timerFrame ⟨r.e0, none, [], 0, true⟩ t)).elapsed
            = r.e0 + (t - t) + (fs.getLastD t - t) :=
          timerFrame_foldl_elapsed fs (r.e0 + (t - t)) t ([] ++ [r.e0 + (t - t)]) 0 true
        show (List.foldl timerFrame
          (timerFrame ⟨r.e0, none, [], 0, true⟩ t) fs).elapsed ≤ r.duration
        rw [h1]
        have hT : r.armAt ≤ t ∧ t ≤ r.fireAt := by
          refine hmem t ?_
          rw [hfs]
          exact List.mem_cons_self t fs
        have hL : fs.getLastD t ≤ r.fireAt := by
          refine (hmem (fs.getLastD t) ?_).2
          rw [hfs]
          exact List.getLastD_mem_cons fs t
        have := hT.1
        linarith [hot]
    exact max_eq_right hbase

/-- Witness for C1 (amended): duration `100`, started fresh, ticks at
`0` and `60`, deadline check on time at `100`: the final value is exactly
the duration and completion fires once. -/
theorem useRafTimer_completion_w :
    (timerRun ⟨100, 0, 0, [0, 60], 100⟩).elapsed = 100
    ∧ (timerRun ⟨100, 0, 0, [0, 60], 100⟩).completions = 1 :=
  ⟨(useRafTimer_completion ⟨100, 0, 0, [0, 60], 100⟩
      (by norm_num [tRunOk, List.chain'_cons])).2
      (by norm_num [tRunOnTime]),
   (useRafTimer_completion ⟨100, 0, 0, [0, 60], 100⟩
      (by norm_num [tRunOk, List.chain'_cons])).1.2.1⟩

end UseRaf
